import Mathlib

/-!
Verification of the mcp-translation-server core: object naming, blob-name
normalization, the job registry, the result-retrieval orchestration of the
REST handler and of the MCP handler, the submission path, and the Graph
token exchange.  Names and languages are modelled as lists of characters,
artifact contents as lists of bytes, and every external call (storage,
translation provider, identity endpoint) as an explicit oracle argument.
-/

namespace TransServer

abbrev Str := List Char
abbrev Bytes := List Nat

/-- Split a list at the last occurrence of a character, modelling Python
`s.rsplit(c, 1)` when `c` occurs in `s` (`none` when it does not). -/
def rsplitOne (c : Char) : Str → Option (Str × Str)
  | [] => none
  | x :: xs =>
    match rsplitOne c xs with
    | some (a, b) => some (x :: a, b)
    | none => if x = c then some ([], xs) else none

/-- Output-object naming used by `prepare_translation_urls` (and, after
normalization, by `prepare_blobs`): split off the extension at the last dot
and insert `-{language}` before it. -/
def naming (n lang : Str) : Str :=
  match rsplitOne '.' n with
  | some (base, ext) =>
      if ext ≠ [] then base ++ '-' :: lang ++ '.' :: ext else base ++ '-' :: lang
  | none => n ++ '-' :: lang

def unknownLang : Str := "unknown".toList

/-- Reverse mapping used by the best-effort recovery branch of `get_result`:
strip the extension at the last dot, then split the remainder at the last
hyphen into original name and language. -/
def recover (f : Str) : Str × Str :=
  match rsplitOne '.' f with
  | some (np, ext) =>
    match rsplitOne '-' np with
    | some (orig, lang) => (orig ++ '.' :: ext, lang)
    | none => (f, unknownLang)
  | none =>
    match rsplitOne '-' f with
    | some (orig, lang) => (orig, lang)
    | none => (f, unknownLang)

/-- The extension produced by the last-dot split is nonempty whenever a dot
occurs, i.e. the name does not end with a dot. -/
def extNonemptyIfDotted (n : Str) : Bool :=
  match rsplitOne '.' n with
  | some (_, e) => !e.isEmpty
  | none => true

/-- Characters kept verbatim by the normalization regex `[^a-zA-Z0-9._]`. -/
def isAllowedChar (c : Char) : Bool :=
  c.isAlpha || c.isDigit || c = '.' || c = '_'

/-- First normalization step: `replace(' ', '_')` then `replace('-', '_')`. -/
def replaceSpacesHyphens (l : Str) : Str :=
  (l.map (fun c => if c = ' ' then '_' else c)).map (fun c => if c = '-' then '_' else c)

/-- Second normalization step: the regex substitution mapping every character
outside `[a-zA-Z0-9._]` to an underscore. -/
def underscoreDisallowed (l : Str) : Str :=
  l.map (fun c => if isAllowedChar c then c else '_')

/-- Third normalization step: collapse every run of underscores to a single
underscore, modelling `re.sub(r'_+', '_', s)`. -/
def squeeze : Str → Str
  | [] => []
  | [c] => [c]
  | a :: b :: rest =>
      if a = '_' ∧ b = '_' then squeeze (b :: rest) else a :: squeeze (b :: rest)

/-- Test for the stripped character. -/
def isUnd (c : Char) : Bool := c == '_'

/-- Fourth normalization step: `strip('_')`, removing underscores at both
string ends only. -/
def stripUnderscores (l : Str) : Str :=
  ((l.dropWhile isUnd).reverse.dropWhile isUnd).reverse

/-- Python slice `l[:m]` for a possibly negative bound `m`. -/
def pyTake (l : Str) (m : Int) : Str :=
  if m < 0 then l.take (Int.toNat ((l.length : Int) + m)) else l.take m.toNat

/-- Final normalization step: cap the length at 200 characters, keeping the
extension after the last dot when one is present. -/
def truncate200 (l : Str) : Str :=
  if l.length > 200 then
    match rsplitOne '.' l with
    | some (np, ext) => pyTake np (200 - (ext.length : Int) - 1) ++ '.' :: ext
    | none => l.take 200
  else l

/-- The normalization pipeline before the length cap. -/
def preNormalize (f : Str) : Str :=
  stripUnderscores (squeeze (underscoreDisallowed (replaceSpacesHyphens f)))

/-- `BlobService._normalize_blob_name`. -/
def normalizeBlobName (f : Str) : Str :=
  truncate200 (preNormalize f)

/-- Output-object name computed by `prepare_blobs`: normalization followed by
the language-suffix naming convention. -/
def prepareBlobsOutputName (fileName lang : Str) : Str :=
  naming (normalizeBlobName fileName) lang

/-- No two consecutive underscores occur. -/
def noDoubleUnderscore : Str → Bool
  | [] => true
  | [_] => true
  | a :: b :: rest => !(a == '_' && b == '_') && noDoubleUnderscore (b :: rest)

/-- The first character, when present, is not an underscore. -/
def headNotUnderscore : Str → Bool
  | [] => true
  | c :: _ => !(c == '_')

/-- The last character, when present, is not an underscore. -/
def lastNotUnderscore (l : Str) : Bool :=
  headNotUnderscore l.reverse

/-- The extension kept by the length cap is itself short enough (at most 199
characters) for the cap to fit inside 200 characters. -/
def extShortEnough (f : Str) : Bool :=
  match rsplitOne '.' (preNormalize f) with
  | some (_, e) => e.length ≤ 199
  | none => true

/-- Provider-side status of a translation job. -/
inductive TransStatus
  | Pending
  | InProgress
  | Succeeded
  | Failed
deriving DecidableEq

/-- Result of the bounded status-polling loop, recording how many status
calls were issued and how many 5-second sleeps were performed. -/
inductive PollResult
  | succeeded (polls sleeps : Nat)
  | exhausted (last : TransStatus) (polls sleeps : Nat)
deriving DecidableEq

/-- Number of status calls recorded in a poll result. -/
def pollCount : PollResult → Nat
  | .succeeded p _ => p
  | .exhausted _ p _ => p

/-- The `for retry in range(max_retries)` loop of `get_result`: poll, stop at
`Succeeded`, sleep 5 seconds when attempts remain, give up on the last
attempt.  `statuses i` is the status the provider reports on the i-th poll. -/
def runPolls (statuses : Nat → TransStatus) : Nat → Nat → PollResult
  | _, 0 => .exhausted .Failed 0 0
  | idx, r + 1 =>
    if statuses idx = .Succeeded then .succeeded 1 0
    else if r = 0 then .exhausted (statuses idx) 1 0
    else
      match runPolls statuses (idx + 1) r with
      | .succeeded p s => .succeeded (p + 1) (s + 1)
      | .exhausted last p s => .exhausted (last) (p + 1) (s + 1)

/-- Outcome of the probe-then-poll completion resolution of `get_result`. -/
inductive ResolveOutcome
  | ok (content : Bytes) (polls sleeps : Nat)
  | notReady (last : TransStatus) (polls sleeps : Nat)
  | artifactUnavailable (polls sleeps : Nat)
deriving DecidableEq

/-- Lines 729-781 of the REST handler: attempt the direct download; on
failure poll the provider up to 3 times with 5-second pauses; if a poll
reports `Succeeded`, retry the download exactly once; a second failure is a
distinct backend-inconsistency error.  `downloads i` is the outcome of the
i-th download attempt in this request (`none` models an exception). -/
def resolveContent (downloads : Nat → Option Bytes) (statuses : Nat → TransStatus) :
    ResolveOutcome :=
  match downloads 0 with
  | some c => .ok c 0 0
  | none =>
    match runPolls statuses 0 3 with
    | .exhausted last p s => .notReady last p s
    | .succeeded p s =>
      match downloads 1 with
      | some c => .ok c p s
      | none => .artifactUnavailable p s

/-- A record of the in-memory `active_translations` table. -/
structure JobInfo where
  blob_name : Str
  target_language : Str
  user_id : Str
  target_url : Str
deriving DecidableEq

abbrev Registry := List (Str × JobInfo)

/-- Membership test and read of the `active_translations` dict. -/
def lookupReg : Registry → Str → Option JobInfo
  | [], _ => none
  | (k, v) :: rest, tid => if k = tid then some v else lookupReg rest tid

/-- The `del active_translations[translation_id]` eviction. -/
def eraseReg : Registry → Str → Registry
  | [], _ => []
  | (k, v) :: rest, tid => if k = tid then eraseReg rest tid else (k, v) :: eraseReg rest tid

/-- Listing entry of the output container: blob name, seconds since last
modification, a modification timestamp used for picking the most recent
entry, and the blob URL. -/
structure BlobMeta where
  name : Str
  ageSeconds : Nat
  modified : Nat
  url : Str
deriving DecidableEq

/-- Python `max(files, key=lambda x: x['last_modified'])`: first maximal
element. -/
def maxByModified : List BlobMeta → Option BlobMeta
  | [] => none
  | b :: rest =>
      some (rest.foldl (fun acc x => if x.modified > acc.modified then x else acc) b)

def unknownUser : Str := "unknown".toList

/-- Best-effort recovery scan of `get_result`: keep blobs modified within the
last 2 hours (7200 seconds), pick the most recent, and reverse-map its name
into an artificial job record with unknown user. -/
def recoverInfo (listing : List BlobMeta) : Option JobInfo :=
  match maxByModified (listing.filter (fun b => b.ageSeconds < 7200)) with
  | none => none
  | some b =>
      some { blob_name := (recover b.name).1, target_language := (recover b.name).2,
             user_id := unknownUser, target_url := b.url }

/-- How `get_result` obtained the job record: from the registry, from the
recovery scan, or not at all.  A `none` listing models an exception while
listing the container. -/
inductive LookupOutcome
  | missing
  | found (info : JobInfo) (viaRegistry : Bool)
deriving DecidableEq

def lookupInfo (registry : Registry) (tid : Str) (listing : Option (List BlobMeta)) :
    LookupOutcome :=
  match lookupReg registry tid with
  | some info => .found info true
  | none =>
    match listing with
    | none => .missing
    | some l =>
      match recoverInfo l with
      | some info => .found info false
      | none => .missing

/-- Error classes of the REST result endpoint. -/
inductive ErrKind
  | notFound
  | notReady
  | artifactUnavailable
  | internal
deriving DecidableEq

/-- JSON response of the REST `get_result` endpoint together with the
bookkeeping observable in this request (polls issued, sleeps performed). -/
structure GetResultOutcome where
  httpStatus : Nat
  success : Bool
  errorKind : Option ErrKind := none
  content : Option Bytes := none
  fileName : Option Str := none
  targetLanguage : Option Str := none
  savedToOneDrive : Option Bool := none
  onedriveUrl : Option Str := none
  onedriveError : Option Str := none
  polls : Nat := 0
  sleeps : Nat := 0
deriving DecidableEq

def odNotConfigured : Str := "Service OneDrive non configuré".toList

/-- Lines 792-813 of the REST handler: the OneDrive section, producing the
`saved_to_onedrive` flag and the url or error annotation.  `save` is the
outcome of `save_to_onedrive` (`error` models an exception). -/
def onedrivePart (enabled : Bool) (save : Except Str Str) :
    Bool × Option Str × Option Str :=
  if enabled then
    match save with
    | .ok url => (true, some url, none)
    | .error e => (false, none, some e)
  else (false, none, some odNotConfigured)

/-- The REST `get_result` handler end to end: registry lookup with
best-effort recovery, probe-then-poll resolution, OneDrive annotation, and
eviction.  When the record came from the recovery scan the final
`del active_translations[translation_id]` raises `KeyError`, which the outer
handler turns into a generic 500 response. -/
def getResult (registry : Registry) (tid : Str) (listing : Option (List BlobMeta))
    (downloads : Nat → Option Bytes) (statuses : Nat → TransStatus)
    (graphEnabled : Bool) (save : Except Str Str) : GetResultOutcome × Registry :=
  match lookupInfo registry tid listing with
  | .missing =>
      ({ httpStatus := 404, success := false, errorKind := some .notFound }, registry)
  | .found info viaRegistry =>
    match resolveContent downloads statuses with
    | .notReady _ p s =>
        ({ httpStatus := 400, success := false, errorKind := some .notReady,
           polls := p, sleeps := s }, registry)
    | .artifactUnavailable p s =>
        ({ httpStatus := 500, success := false, errorKind := some .artifactUnavailable,
           polls := p, sleeps := s }, registry)
    | .ok c p s =>
      let od := onedrivePart graphEnabled save
      if viaRegistry then
        ({ httpStatus := 200, success := true, content := some c,
           fileName := some info.blob_name, targetLanguage := some info.target_language,
           savedToOneDrive := some od.1, onedriveUrl := od.2.1, onedriveError := od.2.2,
           polls := p, sleeps := s }, eraseReg registry tid)
      else
        ({ httpStatus := 500, success := false, errorKind := some .internal,
           polls := p, sleeps := s }, registry)

/-- Text result of the MCP `get_translation_result` tool.  `retrieveErrorMsg`
is the generic error text produced by the handler's outer `except` clause. -/
inductive MCPResult
  | notFoundMsg (tid : Str)
  | notReadyMsg (st : TransStatus)
  | retrieveErrorMsg
  | okMsg (size : Nat) (odUrl : Option Str) (odError : Option Str)
deriving DecidableEq

/-- Keys stored into an MCP registry record by `_handle_translate_document`
(the only creation path of `self.active_translations` entries in the MCP
server); `file_name` is not among them. -/
def mcpRecordKeys : List Str :=
  ["blob_name".toList, "target_language".toList, "user_id".toList,
   "blob_urls".toList, "status".toList, "started_at".toList]

/-- The MCP-server `_handle_get_result`: registry lookup, then a status check
that must report `Succeeded` before any download is attempted, then the
download.  After a successful download the handler builds its success message
with the plain subscript `translation_info['file_name']`; that key is absent
from every record (`mcpRecordKeys`), so the subscript raises `KeyError`,
which the handler's `except` clause turns into the generic retrieval-error
text with the registry untouched — the subsequent OneDrive save and the
eviction run only if the record had a `file_name` key. -/
def handleGetResultMCP (registry : Registry) (tid : Str) (saveFlag : Bool)
    (status : TransStatus) (download : Option Bytes) (save : Except Str Str) :
    MCPResult × Registry :=
  match lookupReg registry tid with
  | none => (.notFoundMsg tid, registry)
  | some _ =>
    if status = .Succeeded then
      match download with
      | none => (.retrieveErrorMsg, registry)
      | some c =>
        if "file_name".toList ∈ mcpRecordKeys then
          let od : Option Str × Option Str :=
            if saveFlag then
              match save with
              | .ok url => (some url, none)
              | .error e => (none, some e)
            else (none, none)
          (.okMsg c.length od.1 od.2, eraseReg registry tid)
        else (.retrieveErrorMsg, registry)
    else (.notReadyMsg status, registry)

/-- `BlobService.check_blob_exists`: returns the storage answer, and `False`
when the storage call raises. -/
def checkBlobExists (probe : Except Str Bool) : Bool :=
  match probe with
  | .ok b => b
  | .error _ => false

/-- Response of the REST `/translate` endpoint. -/
inductive SubmitResp
  | notFound (blobName : Str)
  | serverError
  | started (tid : Str)
deriving DecidableEq

/-- Response plus the observable side effects of a submission: whether the
provider was contacted and the registry afterwards. -/
structure SubmitOutcome where
  resp : SubmitResp
  providerCalled : Bool
  registry : Registry
deriving DecidableEq

/-- The REST `translate_document` handler: existence probe, URL
provisioning, provider submission, registration.  `prep` and `start` are the
outcomes of `prepare_translation_urls` and `start_translation`. -/
def translateDocument (registry : Registry) (blobName targetLanguage userId : Str)
    (probe : Except Str Bool) (prep : Except Str Str) (start : Except Str Str) :
    SubmitOutcome :=
  if checkBlobExists probe then
    match prep with
    | .error _ => ⟨.serverError, false, registry⟩
    | .ok targetUrl =>
      match start with
      | .error _ => ⟨.serverError, true, registry⟩
      | .ok tid =>
          ⟨.started tid, true,
            (tid, ⟨blobName, targetLanguage, userId, targetUrl⟩) :: registry⟩
  else ⟨.notFound blobName, false, registry⟩

/-- Text result of the MCP `translate_document` tool. -/
inductive MCPSubmitResp
  | notFoundText (blobName : Str)
  | errorText
  | startedText (tid : Str)
deriving DecidableEq

structure MCPSubmitOutcome where
  resp : MCPSubmitResp
  providerCalled : Bool
  registry : Registry
deriving DecidableEq

/-- The MCP-server `_handle_translate_document`, structurally identical to
the REST handler but answering with tool text. -/
def handleTranslateMCP (registry : Registry) (blobName targetLanguage userId : Str)
    (probe : Except Str Bool) (prep : Except Str Str) (start : Except Str Str) :
    MCPSubmitOutcome :=
  if checkBlobExists probe then
    match prep with
    | .error _ => ⟨.errorText, false, registry⟩
    | .ok targetUrl =>
      match start with
      | .error _ => ⟨.errorText, true, registry⟩
      | .ok tid =>
          ⟨.startedText tid, true,
            (tid, ⟨blobName, targetLanguage, userId, targetUrl⟩) :: registry⟩
  else ⟨.notFoundText blobName, false, registry⟩

/-- Outcome of one client-credentials exchange against the identity
endpoint: HTTP 200 with or without an `access_token` field, or a failure. -/
inductive ExchangeOutcome
  | ok (token : Option Str)
  | failed
deriving DecidableEq

/-- `GraphService._get_access_token`: performs the exchange unconditionally,
stores a successful token into `self._access_token`, and returns it; the
cached value is never read.  Returns (result, new cache, exchanges done). -/
def getAccessTokenModel (exchange : ExchangeOutcome) (cachedToken : Option Str) :
    Option Str × Option Str × Nat :=
  match exchange with
  | .ok (some t) => (some t, some t, 1)
  | .ok none => (none, cachedToken, 1)
  | .failed => (none, cachedToken, 1)

theorem rsplitOne_nil (c : Char) : rsplitOne c [] = none := rfl

theorem rsplitOne_cons (c x : Char) (xs : Str) :
    rsplitOne c (x :: xs) =
      match rsplitOne c xs with
      | some (a, b) => some (x :: a, b)
      | none => if x = c then some ([], xs) else none := rfl

theorem rsplitOne_eq_none {c : Char} : ∀ {l : Str}, rsplitOne c l = none ↔ c ∉ l := by
  intro l
  induction l with
  | nil => simp [rsplitOne]
  | cons x xs ih =>
    rw [rsplitOne_cons]
    cases h : rsplitOne c xs with
    | some p =>
      obtain ⟨a, b⟩ := p
      have hmem : c ∈ xs := by
        by_contra hc
        rw [ih.mpr hc] at h; cases h
      simp [hmem]
    | none =>
      have hnot : c ∉ xs := ih.mp h
      by_cases hx : x = c
      · subst hx
        simp [hnot]
      · have hcx : ¬ c = x := fun hh => hx hh.symm
        simp [hx, hcx, hnot]

theorem rsplitOne_append {c : Char} (a : Str) {b : Str} (hb : c ∉ b) :
    rsplitOne c (a ++ c :: b) = some (a, b) := by
  induction a with
  | nil =>
    have hnone : rsplitOne c b = none := rsplitOne_eq_none.mpr hb
    simp [rsplitOne_cons, hnone]
  | cons x xs ih =>
    rw [List.cons_append, rsplitOne_cons, ih]

theorem rsplitOne_eq_some {c : Char} :
    ∀ {l a b : Str}, rsplitOne c l = some (a, b) → l = a ++ c :: b ∧ c ∉ b := by
  intro l
  induction l with
  | nil => intro a b h; cases h
  | cons x xs ih =>
    intro a b h
    rw [rsplitOne_cons] at h
    cases hx : rsplitOne c xs with
    | some p =>
      obtain ⟨a', b'⟩ := p
      rw [hx] at h
      simp only [Option.some.injEq, Prod.mk.injEq] at h
      obtain ⟨rfl, rfl⟩ := h
      obtain ⟨hdec, hnot⟩ := ih hx
      subst hdec
      exact ⟨by simp, hnot⟩
    | none =>
      rw [hx] at h
      by_cases hxc : x = c
      · rw [if_pos hxc] at h
        simp only [Option.some.injEq, Prod.mk.injEq] at h
        obtain ⟨rfl, rfl⟩ := h
        subst hxc
        exact ⟨rfl, rsplitOne_eq_none.mp hx⟩
      · rw [if_neg hxc] at h
        cases h

theorem lastSplit_unique {c : Char} {a₁ b₁ a₂ b₂ : Str}
    (h : a₁ ++ c :: b₁ = a₂ ++ c :: b₂) (h₁ : c ∉ b₁) (h₂ : c ∉ b₂) :
    a₁ = a₂ ∧ b₁ = b₂ := by
  have e₁ := @rsplitOne_append c a₁ b₁ h₁
  have e₂ := @rsplitOne_append c a₂ b₂ h₂
  rw [h, e₂] at e₁
  simp only [Option.some.injEq, Prod.mk.injEq] at e₁
  exact ⟨e₁.1.symm, e₁.2.symm⟩

theorem squeeze_nil : squeeze [] = [] := rfl

theorem squeeze_single (c : Char) : squeeze [c] = [c] := rfl

theorem squeeze_cons₂ (a b : Char) (r : Str) :
    squeeze (a :: b :: r) =
      if a = '_' ∧ b = '_' then squeeze (b :: r) else a :: squeeze (b :: r) := rfl

theorem mem_squeeze {c : Char} : ∀ {l : Str}, c ∈ squeeze l → c ∈ l := by
  intro l
  induction l with
  | nil => simp [squeeze_nil]
  | cons a t ih =>
    cases t with
    | nil => simp [squeeze_single]
    | cons b r =>
      rw [squeeze_cons₂]
      by_cases h : a = '_' ∧ b = '_'
      · rw [if_pos h]
        intro hc
        exact List.mem_cons_of_mem a (ih hc)
      · rw [if_neg h]
        intro hc
        rcases List.mem_cons.mp hc with rfl | hc2
        · exact List.mem_cons_self _ _
        · exact List.mem_cons_of_mem a (ih hc2)

theorem mem_dropWhile {c : Char} {p : Char → Bool} {l : Str}
    (h : c ∈ l.dropWhile p) : c ∈ l := by
  have hd := List.takeWhile_append_dropWhile p l
  rw [← hd]
  exact List.mem_append_right _ h

theorem mem_stripUnderscores {c : Char} {l : Str} (h : c ∈ stripUnderscores l) : c ∈ l := by
  unfold stripUnderscores at h
  rw [List.mem_reverse] at h
  have h2 := mem_dropWhile h
  rw [List.mem_reverse] at h2
  exact mem_dropWhile h2

theorem mem_pyTake {c : Char} {l : Str} {m : Int} (h : c ∈ pyTake l m) : c ∈ l := by
  unfold pyTake at h
  by_cases hm : m < 0
  · rw [if_pos hm] at h; exact List.mem_of_mem_take h
  · rw [if_neg hm] at h; exact List.mem_of_mem_take h

theorem mem_truncate200 {c : Char} {l : Str} (h : c ∈ truncate200 l) : c ∈ l := by
  unfold truncate200 at h
  by_cases hl : l.length > 200
  · rw [if_pos hl] at h
    cases hs : rsplitOne '.' l with
    | some p =>
      obtain ⟨np, ext⟩ := p
      rw [hs] at h
      dsimp only at h
      obtain ⟨hdec, -⟩ := rsplitOne_eq_some hs
      rw [hdec]
      rcases List.mem_append.mp h with h1 | h1
      · exact List.mem_append_left _ (mem_pyTake h1)
      · exact List.mem_append_right _ h1
    | none =>
      rw [hs] at h
      dsimp only at h
      exact List.mem_of_mem_take h
  · rw [if_neg hl] at h
    exact h

theorem allowed_preNormalize {f : Str} {c : Char} (h : c ∈ preNormalize f) :
    isAllowedChar c = true := by
  unfold preNormalize at h
  have h1 := mem_squeeze (mem_stripUnderscores h)
  unfold underscoreDisallowed at h1
  obtain ⟨a, -, ha⟩ := List.mem_map.mp h1
  by_cases hall : isAllowedChar a = true
  · rw [if_pos hall] at ha
    rw [← ha]
    exact hall
  · rw [if_neg hall] at ha
    rw [← ha]
    decide

theorem allowed_normalizeBlobName {f : Str} {c : Char} (h : c ∈ normalizeBlobName f) :
    isAllowedChar c = true :=
  allowed_preNormalize (mem_truncate200 h)

theorem noDoubleUnderscore_cons₂ (a b : Char) (r : Str) :
    noDoubleUnderscore (a :: b :: r) =
      (!(a == '_' && b == '_') && noDoubleUnderscore (b :: r)) := rfl

theorem headNotUnderscore_cons (c : Char) (t : Str) :
    headNotUnderscore (c :: t) = !(c == '_') := rfl

theorem noDoubleUnderscore_tail {a : Char} {l : Str}
    (h : noDoubleUnderscore (a :: l) = true) : noDoubleUnderscore l = true := by
  cases l with
  | nil => rfl
  | cons b r =>
    rw [noDoubleUnderscore_cons₂, Bool.and_eq_true] at h
    exact h.2

theorem noDoubleUnderscore_cons {x : Char} {xs : Str}
    (h1 : x = '_' → headNotUnderscore xs = true)
    (h2 : noDoubleUnderscore xs = true) :
    noDoubleUnderscore (x :: xs) = true := by
  cases xs with
  | nil => rfl
  | cons b r =>
    rw [noDoubleUnderscore_cons₂, Bool.and_eq_true]
    refine ⟨?_, h2⟩
    by_cases hx : x = '_'
    · have hb := h1 hx
      rw [headNotUnderscore_cons] at hb
      simp only [Bool.not_eq_true'] at hb ⊢
      simp [hb]
    · simp [hx]

theorem squeeze_cons_ne {b : Char} (r : Str) (hb : b ≠ '_') :
    squeeze (b :: r) = b :: squeeze r := by
  cases r with
  | nil => rfl
  | cons c r2 =>
    rw [squeeze_cons₂, if_neg]
    intro hc
    exact hb hc.1

theorem noDoubleUnderscore_squeeze : ∀ l : Str, noDoubleUnderscore (squeeze l) = true := by
  intro l
  induction l with
  | nil => rfl
  | cons a t ih =>
    cases t with
    | nil => rfl
    | cons b r =>
      rw [squeeze_cons₂]
      by_cases h : a = '_' ∧ b = '_'
      · rw [if_pos h]
        exact ih
      · rw [if_neg h]
        refine noDoubleUnderscore_cons ?_ ih
        intro ha
        have hb : b ≠ '_' := fun hbe => h ⟨ha, hbe⟩
        rw [squeeze_cons_ne r hb, headNotUnderscore_cons]
        simp [hb]

theorem noDoubleUnderscore_append_left {x y : Str}
    (h : noDoubleUnderscore (x ++ y) = true) : noDoubleUnderscore x = true := by
  induction x with
  | nil => rfl
  | cons a t ih =>
    cases t with
    | nil => rfl
    | cons b r =>
      rw [List.cons_append, List.cons_append, noDoubleUnderscore_cons₂,
        Bool.and_eq_true] at h
      rw [noDoubleUnderscore_cons₂, Bool.and_eq_true]
      refine ⟨h.1, ih ?_⟩
      rw [List.cons_append]
      exact h.2

theorem noDoubleUnderscore_append_right {x y : Str}
    (h : noDoubleUnderscore (x ++ y) = true) : noDoubleUnderscore y = true := by
  induction x with
  | nil => exact h
  | cons a t ih =>
    exact ih (noDoubleUnderscore_tail h)

theorem noDoubleUnderscore_take {l : Str} (n : Nat)
    (h : noDoubleUnderscore l = true) : noDoubleUnderscore (l.take n) = true := by
  have hd := List.take_append_drop n l
  rw [← hd] at h
  exact noDoubleUnderscore_append_left h

theorem noDoubleUnderscore_append_mid {x y : Str} {c : Char} (hc : c ≠ '_')
    (hx : noDoubleUnderscore x = true) (hy : noDoubleUnderscore (c :: y) = true) :
    noDoubleUnderscore (x ++ c :: y) = true := by
  induction x with
  | nil => exact hy
  | cons a t ih =>
    have hrest := ih (noDoubleUnderscore_tail hx)
    rw [List.cons_append]
    refine noDoubleUnderscore_cons ?_ hrest
    intro ha
    cases t with
    | nil =>
      rw [List.nil_append, headNotUnderscore_cons]
      simp [hc]
    | cons b r =>
      rw [noDoubleUnderscore_cons₂, Bool.and_eq_true] at hx
      have h1 := hx.1
      rw [ha] at h1
      simp only [beq_self_eq_true, Bool.true_and, Bool.not_eq_true'] at h1
      have hb : b ≠ '_' := by simpa using h1
      rw [List.cons_append, headNotUnderscore_cons]
      simp [hb]

theorem headNotUnderscore_dropWhile (l : Str) :
    headNotUnderscore (l.dropWhile isUnd) = true := by
  induction l with
  | nil => rfl
  | cons a t ih =>
    rw [List.dropWhile_cons]
    by_cases ha : isUnd a = true
    · rw [if_pos ha]
      exact ih
    · rw [if_neg ha, headNotUnderscore_cons]
      unfold isUnd at ha
      simp only [Bool.not_eq_true] at ha
      simp [ha]

theorem stripUnderscores_decomp (l : Str) :
    l = l.takeWhile isUnd ++ stripUnderscores l
        ++ ((l.dropWhile isUnd).reverse.takeWhile isUnd).reverse := by
  have h1 : l.takeWhile isUnd ++ l.dropWhile isUnd = l :=
    List.takeWhile_append_dropWhile isUnd l
  have h2 : (l.dropWhile isUnd).reverse.takeWhile isUnd
      ++ (l.dropWhile isUnd).reverse.dropWhile isUnd = (l.dropWhile isUnd).reverse :=
    List.takeWhile_append_dropWhile isUnd (l.dropWhile isUnd).reverse
  have h3 := congrArg List.reverse h2
  rw [List.reverse_append, List.reverse_reverse] at h3
  unfold stripUnderscores
  conv_lhs => rw [← h1]
  rw [← h3]
  simp

theorem stripUnderscores_append_right (l : Str) :
    l.dropWhile isUnd
      = stripUnderscores l ++ ((l.dropWhile isUnd).reverse.takeWhile isUnd).reverse := by
  have h2 : (l.dropWhile isUnd).reverse.takeWhile isUnd
      ++ (l.dropWhile isUnd).reverse.dropWhile isUnd = (l.dropWhile isUnd).reverse :=
    List.takeWhile_append_dropWhile isUnd (l.dropWhile isUnd).reverse
  have h3 := congrArg List.reverse h2
  rw [List.reverse_append, List.reverse_reverse] at h3
  unfold stripUnderscores
  exact h3.symm

theorem headNotUnderscore_append_left {y z : Str}
    (h : headNotUnderscore (y ++ z) = true) : headNotUnderscore y = true := by
  cases y with
  | nil => rfl
  | cons c t =>
    rw [List.cons_append, headNotUnderscore_cons] at h
    rw [headNotUnderscore_cons]
    exact h

theorem headNotUnderscore_append_ne_nil {c : Char} {t : Str} (z : Str)
    (h : headNotUnderscore (c :: t) = true) :
    headNotUnderscore ((c :: t) ++ z) = true := by
  rw [List.cons_append, headNotUnderscore_cons]
  rw [headNotUnderscore_cons] at h
  exact h

theorem headNotUnderscore_stripUnderscores (l : Str) :
    headNotUnderscore (stripUnderscores l) = true :=
  headNotUnderscore_append_left
    (stripUnderscores_append_right l ▸ headNotUnderscore_dropWhile l)

theorem lastNotUnderscore_stripUnderscores (l : Str) :
    lastNotUnderscore (stripUnderscores l) = true := by
  unfold lastNotUnderscore stripUnderscores
  rw [List.reverse_reverse]
  exact headNotUnderscore_dropWhile _

theorem noDoubleUnderscore_stripUnderscores {l : Str}
    (h : noDoubleUnderscore l = true) :
    noDoubleUnderscore (stripUnderscores l) = true := by
  have hd := stripUnderscores_decomp l
  rw [hd, List.append_assoc] at h
  exact noDoubleUnderscore_append_left (noDoubleUnderscore_append_right h)

theorem headNotUnderscore_take {l : Str} (n : Nat)
    (h : headNotUnderscore l = true) : headNotUnderscore (l.take n) = true := by
  cases l with
  | nil => simp [headNotUnderscore]
  | cons c t =>
    cases n with
    | zero => rfl
    | succ n2 =>
      rw [List.take_succ_cons, headNotUnderscore_cons]
      rw [headNotUnderscore_cons] at h
      exact h

theorem headNotUnderscore_pyTake {l : Str} (m : Int)
    (h : headNotUnderscore l = true) : headNotUnderscore (pyTake l m) = true := by
  unfold pyTake
  by_cases hm : m < 0
  · rw [if_pos hm]; exact headNotUnderscore_take _ h
  · rw [if_neg hm]; exact headNotUnderscore_take _ h

theorem noDoubleUnderscore_pyTake {l : Str} (m : Int)
    (h : noDoubleUnderscore l = true) : noDoubleUnderscore (pyTake l m) = true := by
  unfold pyTake
  by_cases hm : m < 0
  · rw [if_pos hm]; exact noDoubleUnderscore_take _ h
  · rw [if_neg hm]; exact noDoubleUnderscore_take _ h

theorem headNotUnderscore_truncate200 {l : Str}
    (h : headNotUnderscore l = true) : headNotUnderscore (truncate200 l) = true := by
  unfold truncate200
  by_cases hl : l.length > 200
  · rw [if_pos hl]
    cases hs : rsplitOne '.' l with
    | some p =>
      obtain ⟨np, ext⟩ := p
      dsimp only
      obtain ⟨hdec, -⟩ := rsplitOne_eq_some hs
      have hnp : headNotUnderscore np = true := by
        rw [hdec] at h
        exact headNotUnderscore_append_left h
      have hpt := headNotUnderscore_pyTake (200 - (ext.length : Int) - 1) hnp
      cases hp : pyTake np (200 - (ext.length : Int) - 1) with
      | nil => rw [List.nil_append, headNotUnderscore_cons]; decide
      | cons c t =>
        rw [hp] at hpt
        exact headNotUnderscore_append_ne_nil _ hpt
    | none =>
      dsimp only
      exact headNotUnderscore_take _ h
  · rw [if_neg hl]
    exact h

theorem noDoubleUnderscore_truncate200 {l : Str}
    (h : noDoubleUnderscore l = true) : noDoubleUnderscore (truncate200 l) = true := by
  unfold truncate200
  by_cases hl : l.length > 200
  · rw [if_pos hl]
    cases hs : rsplitOne '.' l with
    | some p =>
      obtain ⟨np, ext⟩ := p
      dsimp only
      obtain ⟨hdec, -⟩ := rsplitOne_eq_some hs
      rw [hdec] at h
      have hnp := noDoubleUnderscore_append_left h
      have hext := noDoubleUnderscore_append_right h
      exact noDoubleUnderscore_append_mid (by decide)
        (noDoubleUnderscore_pyTake _ hnp) hext
    | none =>
      dsimp only
      exact noDoubleUnderscore_take _ h
  · rw [if_neg hl]
    exact h

theorem truncate200_id {l : Str} (h : l.length ≤ 200) : truncate200 l = l := by
  unfold truncate200
  rw [if_neg]
  omega

theorem truncate200_length {l : Str}
    (h : ∀ np ext : Str, rsplitOne '.' l = some (np, ext) → ext.length ≤ 199) :
    (truncate200 l).length ≤ 200 := by
  unfold truncate200
  by_cases hl : l.length > 200
  · rw [if_pos hl]
    cases hs : rsplitOne '.' l with
    | some p =>
      obtain ⟨np, ext⟩ := p
      dsimp only
      have hext := h np ext hs
      have hm : ¬ (200 - (ext.length : Int) - 1 < 0) := by omega
      rw [List.length_append, List.length_cons]
      unfold pyTake
      rw [if_neg hm, List.length_take]
      omega
    | none =>
      dsimp only
      rw [List.length_take]
      omega
  · rw [if_neg hl]
    omega

theorem isAllowedChar_not_hyphen_space {c : Char} (h : isAllowedChar c = true) :
    c ≠ '-' ∧ c ≠ ' ' := by
  refine ⟨?_, ?_⟩ <;> rintro rfl <;> revert h <;> decide

/-- C9 (amended): normalization always yields only characters from
`[a-zA-Z0-9._]` (so no hyphen and no space) with no two consecutive
underscores and no leading underscore; when the stripped name needs no
truncation it additionally has no trailing underscore and fits in 200
characters; and the 200-character cap holds under truncation provided the
kept extension has at most 199 characters. -/
theorem claim9_amended (f : Str) :
    (∀ c ∈ normalizeBlobName f, isAllowedChar c = true)
    ∧ (∀ c ∈ normalizeBlobName f, c ≠ '-' ∧ c ≠ ' ')
    ∧ noDoubleUnderscore (normalizeBlobName f) = true
    ∧ headNotUnderscore (normalizeBlobName f) = true
    ∧ ((preNormalize f).length ≤ 200 →
        lastNotUnderscore (normalizeBlobName f) = true ∧ (normalizeBlobName f).length ≤ 200)
    ∧ (extShortEnough f = true → (normalizeBlobName f).length ≤ 200) := by
  have hpre_noDU : noDoubleUnderscore (preNormalize f) = true := by
    unfold preNormalize
    exact noDoubleUnderscore_stripUnderscores (noDoubleUnderscore_squeeze _)
  have hpre_head : headNotUnderscore (preNormalize f) = true :=
    headNotUnderscore_stripUnderscores _
  refine ⟨fun c hc => allowed_normalizeBlobName hc,
    fun c hc => isAllowedChar_not_hyphen_space (allowed_normalizeBlobName hc),
    noDoubleUnderscore_truncate200 hpre_noDU,
    headNotUnderscore_truncate200 hpre_head, ?_, ?_⟩
  · intro hlen
    unfold normalizeBlobName
    rw [truncate200_id hlen]
    exact ⟨lastNotUnderscore_stripUnderscores _, hlen⟩
  · intro hext
    unfold normalizeBlobName
    apply truncate200_length
    intro np ext hs
    unfold extShortEnough at hext
    rw [hs] at hext
    simpa using hext

/-- C9 (witness): the amended invariants evaluated on the concrete input
`"a b.txt"`, which needs no truncation. -/
theorem claim9_witness :
    noDoubleUnderscore (normalizeBlobName "a b.txt".toList) = true
    ∧ headNotUnderscore (normalizeBlobName "a b.txt".toList) = true
    ∧ lastNotUnderscore (normalizeBlobName "a b.txt".toList) = true
    ∧ (normalizeBlobName "a b.txt".toList).length ≤ 200 := by
  have h := claim9_amended ("a b.txt".toList)
  have h5 := h.2.2.2.2.1 (by decide)
  exact ⟨h.2.2.1, h.2.2.2.1, h5.1, h5.2⟩

set_option maxRecDepth 8000 in
/-- C9 (counterexample): the claimed 200-character bound fails for a name
with a 250-character extension (the truncation arithmetic goes negative and
the result has 251 characters), and the claimed absence of a trailing
underscore fails for a 210-character dot-free name whose 200th character is
an underscore. -/
theorem claim9_counterexample :
    (normalizeBlobName ('a' :: '.' :: List.replicate 250 'b')).length = 251
    ∧ lastNotUnderscore
        (normalizeBlobName (List.replicate 199 'a' ++ '_' :: List.replicate 10 'c'))
        = false := by
  refine ⟨by decide, by decide⟩

/-- C6 (counterexample): for the name `"foo."` and language `"es"` the code
produces the output name `"foo-es"`, whose base `"foo"` contains no hyphen at
all, yet the recovery reverse-mapping returns `("foo", "es")`, not
`("foo.", "es")`: the claimed exact recovery fails even without any ambiguous
hyphen. -/
theorem claim6_counterexample :
    naming "foo.".toList "es".toList = "foo-es".toList
    ∧ rsplitOne '-' "foo".toList = none
    ∧ recover (naming "foo.".toList "es".toList) = ("foo".toList, "es".toList)
    ∧ recover (naming "foo.".toList "es".toList) ≠ ("foo.".toList, "es".toList) := by
  refine ⟨by decide, by decide, by decide, by decide⟩

/-- C6 (amended): the output name is `{base}-{lang}.{ext}` when the name
splits at a last dot with nonempty extension, and `{name}-{lang}` when it
contains no dot; and provided the language contains neither a hyphen nor a
dot, and the name's extension is nonempty whenever a dot occurs, the recovery
reverse-mapping at the last hyphen recovers exactly the original name and
language (hyphens inside the base are harmless, because the split is at the
last hyphen). -/
theorem claim6_amended (n lang : Str)
    (hlh : '-' ∉ lang) (hld : '.' ∉ lang) (hn : extNonemptyIfDotted n = true) :
    (∀ b e : Str, n = b ++ '.' :: e → '.' ∉ e →
        naming n lang = b ++ '-' :: lang ++ '.' :: e)
    ∧ ('.' ∉ n → naming n lang = n ++ '-' :: lang)
    ∧ recover (naming n lang) = (n, lang) := by
  cases h : rsplitOne '.' n with
  | none =>
    have hnd : '.' ∉ n := rsplitOne_eq_none.mp h
    have hnaming : naming n lang = n ++ '-' :: lang := by
      unfold naming; rw [h]
    refine ⟨?_, fun _ => hnaming, ?_⟩
    · intro b e hbe _
      exfalso
      apply hnd
      rw [hbe]
      simp
    · rw [hnaming]
      have hd2 : '.' ∉ n ++ '-' :: lang := by
        intro hc
        rcases List.mem_append.mp hc with h1 | h1
        · exact hnd h1
        · rcases List.mem_cons.mp h1 with h2 | h2
          · cases h2
          · exact hld h2
      unfold recover
      rw [rsplitOne_eq_none.mpr hd2]
      dsimp only
      rw [rsplitOne_append n hlh]
  | some p =>
    obtain ⟨B, E⟩ := p
    obtain ⟨hdec, hne⟩ := rsplitOne_eq_some h
    have hEne : E ≠ [] := by
      unfold extNonemptyIfDotted at hn
      rw [h] at hn
      simpa using hn
    have hnaming : naming n lang = B ++ '-' :: lang ++ '.' :: E := by
      unfold naming
      rw [h]
      dsimp only
      rw [if_pos hEne]
    have hdot_in : '.' ∈ n := by rw [hdec]; simp
    refine ⟨?_, fun hnd => absurd hdot_in hnd, ?_⟩
    · intro b e hbe hee
      obtain ⟨hb, he⟩ := lastSplit_unique (hdec ▸ hbe) hne hee
      rw [hnaming, hb, he]
    · rw [hnaming]
      have hassoc : B ++ '-' :: lang ++ '.' :: E = (B ++ '-' :: lang) ++ '.' :: E := by
        simp
      unfold recover
      rw [hassoc, rsplitOne_append (B ++ '-' :: lang) hne]
      dsimp only
      rw [rsplitOne_append B hlh]
      dsimp only
      rw [hdec]

/-- C6 (witness): the amended recovery property instantiated at the concrete
name `"a-b.txt"` (whose base even contains a hyphen) and language `"fr"`. -/
theorem claim6_witness :
    ('-' ∉ "fr".toList) ∧ ('.' ∉ "fr".toList)
    ∧ recover (naming "a-b.txt".toList "fr".toList) = ("a-b.txt".toList, "fr".toList) :=
  ⟨by decide, by decide,
    (claim6_amended "a-b.txt".toList "fr".toList (by decide) (by decide) (by decide)).2.2⟩

/-- C5 (counterexample): normalizing `"Report (final).pdf"` keeps the
underscore left by the closing parenthesis before the extension dot, because
`strip('_')` only trims the string ends; the provisioned output object is
therefore `"Report_final_-es.pdf"`, not the claimed `"Report_final-es.pdf"`. -/
theorem claim5_counterexample :
    prepareBlobsOutputName "Report (final).pdf".toList "es".toList
      = "Report_final_-es.pdf".toList
    ∧ prepareBlobsOutputName "Report (final).pdf".toList "es".toList
      ≠ "Report_final-es.pdf".toList := by
  refine ⟨by decide, by decide⟩

/-- C5 (amended): for input `"Report (final).pdf"` and language `"es"` blob
preparation produces `"Report_final_-es.pdf"`, and the best-effort recovery
scan over an output container holding only that object, modified within the
last 2 hours, reverse-maps it to original `"Report_final_.pdf"` and language
`"es"` with unknown user. -/
theorem claim5_amended :
    prepareBlobsOutputName "Report (final).pdf".toList "es".toList
      = "Report_final_-es.pdf".toList
    ∧ recoverInfo [⟨"Report_final_-es.pdf".toList, 3600, 5, "u".toList⟩]
      = some ⟨"Report_final_.pdf".toList, "es".toList, unknownUser, "u".toList⟩ := by
  refine ⟨by decide, by decide⟩

theorem runPolls_three_fail {statuses : Nat → TransStatus}
    (h0 : statuses 0 ≠ .Succeeded) (h1 : statuses 1 ≠ .Succeeded)
    (h2 : statuses 2 ≠ .Succeeded) :
    runPolls statuses 0 3 = .exhausted (statuses 2) 3 2 := by
  simp [runPolls, h0, h1, h2]

theorem runPolls_succ_first {statuses : Nat → TransStatus}
    (h0 : statuses 0 = .Succeeded) :
    runPolls statuses 0 3 = .succeeded 1 0 := by
  simp [runPolls, h0]

theorem runPolls_succ_second {statuses : Nat → TransStatus}
    (h0 : statuses 0 ≠ .Succeeded) (h1 : statuses 1 = .Succeeded) :
    runPolls statuses 0 3 = .succeeded 2 1 := by
  simp [runPolls, h0, h1]

theorem runPolls_succ_third {statuses : Nat → TransStatus}
    (h0 : statuses 0 ≠ .Succeeded) (h1 : statuses 1 ≠ .Succeeded)
    (h2 : statuses 2 = .Succeeded) :
    runPolls statuses 0 3 = .succeeded 3 2 := by
  simp [runPolls, h0, h1, h2]

theorem pollCount_runPolls_le (statuses : Nat → TransStatus) :
    ∀ (r idx : Nat), pollCount (runPolls statuses idx r) ≤ r := by
  intro r
  induction r with
  | zero => intro idx; simp [runPolls, pollCount]
  | succ r ih =>
    intro idx
    by_cases hs : statuses idx = .Succeeded
    · simp [runPolls, hs, pollCount]
    · by_cases hr : r = 0
      · subst hr
        simp [runPolls, hs, pollCount]
      · have hih := ih (idx + 1)
        cases hrr : runPolls statuses (idx + 1) r with
        | succeeded p s =>
          rw [hrr] at hih
          simp only [runPolls, if_neg hs, if_neg hr, hrr]
          simp only [pollCount] at hih ⊢
          omega
        | exhausted last p s =>
          rw [hrr] at hih
          simp only [runPolls, if_neg hs, if_neg hr, hrr]
          simp only [pollCount] at hih ⊢
          omega

theorem lookupReg_eraseReg (registry : Registry) (tid : Str) :
    lookupReg (eraseReg registry tid) tid = none := by
  induction registry with
  | nil => rfl
  | cons kv rest ih =>
    obtain ⟨k, v⟩ := kv
    unfold eraseReg
    by_cases hk : k = tid
    · rw [if_pos hk]
      exact ih
    · rw [if_neg hk]
      unfold lookupReg
      rw [if_neg hk]
      exact ih

/-- C1 (counterexample): on the MCP server, a registered job whose target
object is already downloadable but whose provider status is `InProgress` is
refused with a not-ready message and no artifact: on that handler the status
field is consulted before any download, so the direct-probe-wins property
fails there. -/
theorem claim1_counterexample :
    handleGetResultMCP
        [("t1".toList, ⟨"a.txt".toList, "fr".toList, "u1".toList, "url".toList⟩)]
        "t1".toList true .InProgress (some [1, 2]) (.ok "w".toList)
      = (.notReadyMsg .InProgress,
         [("t1".toList, ⟨"a.txt".toList, "fr".toList, "u1".toList, "url".toList⟩)]) := by
  rfl

/-- C1 (amended): on the REST handler, a registered job whose first direct
download succeeds is answered 200 with the artifact content, zero status
polls, for every status oracle (so even when the provider reports
`InProgress`); the MCP-server handler instead answers a registered job with a
not-ready message whenever the provider status is not `Succeeded`, never
attempting the download. -/
theorem claim1_amended (registry : Registry) (tid : Str)
    (listing : Option (List BlobMeta)) (downloads : Nat → Option Bytes)
    (statuses : Nat → TransStatus) (enabled : Bool) (save : Except Str Str)
    (info : JobInfo) (c : Bytes)
    (hreg : lookupReg registry tid = some info)
    (hdl : downloads 0 = some c) :
    ((getResult registry tid listing downloads statuses enabled save).1.httpStatus = 200
      ∧ (getResult registry tid listing downloads statuses enabled save).1.success = true
      ∧ (getResult registry tid listing downloads statuses enabled save).1.content = some c
      ∧ (getResult registry tid listing downloads statuses enabled save).1.polls = 0)
    ∧ (∀ (reg2 : Registry) (t2 : Str) (flag : Bool) (st : TransStatus)
          (dl : Option Bytes) (sv : Except Str Str) (i2 : JobInfo),
        lookupReg reg2 t2 = some i2 → st ≠ .Succeeded →
        (handleGetResultMCP reg2 t2 flag st dl sv).1 = .notReadyMsg st) := by
  constructor
  · simp [getResult, lookupInfo, hreg, resolveContent, hdl]
  · intro reg2 t2 flag st dl sv i2 hlk hst
    simp [handleGetResultMCP, hlk, hst]

/-- C1 (witness): the amended properties at a concrete registered job with a
downloadable artifact and an `InProgress` provider. -/
theorem claim1_witness :
    (getResult [("t1".toList, ⟨"a.txt".toList, "fr".toList, "u1".toList, "url".toList⟩)]
        "t1".toList none (fun _ => some [3]) (fun _ => .InProgress) false
        (.error "x".toList)).1.success = true
    ∧ (getResult [("t1".toList, ⟨"a.txt".toList, "fr".toList, "u1".toList, "url".toList⟩)]
        "t1".toList none (fun _ => some [3]) (fun _ => .InProgress) false
        (.error "x".toList)).1.content = some [3]
    ∧ (handleGetResultMCP
        [("t1".toList, ⟨"a.txt".toList, "fr".toList, "u1".toList, "url".toList⟩)]
        "t1".toList true .InProgress (some [3]) (.ok "w".toList)).1
      = .notReadyMsg .InProgress := by
  have h := claim1_amended
    [("t1".toList, ⟨"a.txt".toList, "fr".toList, "u1".toList, "url".toList⟩)]
    "t1".toList none (fun _ => some [3]) (fun _ => .InProgress) false
    (.error "x".toList) ⟨"a.txt".toList, "fr".toList, "u1".toList, "url".toList⟩ [3]
    (by decide) rfl
  exact ⟨h.1.2.1, h.1.2.2.1,
    h.2 _ _ true .InProgress (some [3]) (.ok "w".toList)
      ⟨"a.txt".toList, "fr".toList, "u1".toList, "url".toList⟩ (by decide) (by decide)⟩

/-- C2 (confirmed): with the first direct download failing for a registered
job, the REST handler polls the provider at most 3 times; when no poll
reports `Succeeded` it answers 400 not-ready after exactly 3 polls and 2
five-second sleeps (10 seconds of induced delay), keeping the job record;
when the i-th poll is the first to report `Succeeded` it retries the download
exactly once, answering with the artifact on success and with the distinct
500 artifact-unavailable error on failure. -/
theorem claim2_bounded_polling (registry : Registry) (tid : Str)
    (listing : Option (List BlobMeta)) (downloads : Nat → Option Bytes)
    (statuses : Nat → TransStatus) (enabled : Bool) (save : Except Str Str)
    (info : JobInfo)
    (hreg : lookupReg registry tid = some info)
    (h0 : downloads 0 = none) :
    (getResult registry tid listing downloads statuses enabled save).1.polls ≤ 3
    ∧ ((∀ i, i < 3 → statuses i ≠ .Succeeded) →
        (getResult registry tid listing downloads statuses enabled save).1.httpStatus = 400
        ∧ (getResult registry tid listing downloads statuses enabled save).1.errorKind
            = some ErrKind.notReady
        ∧ (getResult registry tid listing downloads statuses enabled save).1.polls = 3
        ∧ (getResult registry tid listing downloads statuses enabled save).1.sleeps = 2
        ∧ (getResult registry tid listing downloads statuses enabled save).1.sleeps * 5 = 10
        ∧ (getResult registry tid listing downloads statuses enabled save).2 = registry)
    ∧ (∀ i, i < 3 → statuses i = .Succeeded → (∀ j, j < i → statuses j ≠ .Succeeded) →
        downloads 1 = none →
        (getResult registry tid listing downloads statuses enabled save).1.httpStatus = 500
        ∧ (getResult registry tid listing downloads statuses enabled save).1.errorKind
            = some ErrKind.artifactUnavailable
        ∧ (getResult registry tid listing downloads statuses enabled save).1.polls = i + 1
        ∧ (getResult registry tid listing downloads statuses enabled save).2 = registry)
    ∧ (∀ i, i < 3 → statuses i = .Succeeded → (∀ j, j < i → statuses j ≠ .Succeeded) →
        ∀ c2, downloads 1 = some c2 →
        (getResult registry tid listing downloads statuses enabled save).1.success = true
        ∧ (getResult registry tid listing downloads statuses enabled save).1.content
            = some c2) := by
  refine ⟨?_, ?_, ?_, ?_⟩
  · have hple := pollCount_runPolls_le statuses 3 0
    cases hrp : runPolls statuses 0 3 with
    | succeeded p s =>
      rw [hrp] at hple
      simp only [pollCount] at hple
      cases hd1 : downloads 1 with
      | some c2 =>
        simp [getResult, lookupInfo, hreg, resolveContent, h0, hrp, hd1]
        omega
      | none =>
        simp [getResult, lookupInfo, hreg, resolveContent, h0, hrp, hd1]
        omega
    | exhausted last p s =>
      rw [hrp] at hple
      simp only [pollCount] at hple
      simp [getResult, lookupInfo, hreg, resolveContent, h0, hrp]
      omega
  · intro hall
    have hrp := runPolls_three_fail (hall 0 (by omega)) (hall 1 (by omega))
      (hall 2 (by omega))
    simp [getResult, lookupInfo, hreg, resolveContent, h0, hrp]
  · intro i hi hsucc hmin hd1
    interval_cases i
    · have hrp := runPolls_succ_first hsucc
      simp [getResult, lookupInfo, hreg, resolveContent, h0, hrp, hd1]
    · have hrp := runPolls_succ_second (hmin 0 (by omega)) hsucc
      simp [getResult, lookupInfo, hreg, resolveContent, h0, hrp, hd1]
    · have hrp := runPolls_succ_third (hmin 0 (by omega)) (hmin 1 (by omega)) hsucc
      simp [getResult, lookupInfo, hreg, resolveContent, h0, hrp, hd1]
  · intro i hi hsucc hmin c2 hd1
    interval_cases i
    · have hrp := runPolls_succ_first hsucc
      simp [getResult, lookupInfo, hreg, resolveContent, h0, hrp, hd1]
    · have hrp := runPolls_succ_second (hmin 0 (by omega)) hsucc
      simp [getResult, lookupInfo, hreg, resolveContent, h0, hrp, hd1]
    · have hrp := runPolls_succ_third (hmin 0 (by omega)) (hmin 1 (by omega)) hsucc
      simp [getResult, lookupInfo, hreg, resolveContent, h0, hrp, hd1]

/-- C2 (witness): the not-ready outcome at a concrete registered job whose
download always fails while the provider keeps reporting `InProgress`. -/
theorem claim2_witness :
    (getResult [("t1".toList, ⟨"a.txt".toList, "fr".toList, "u1".toList, "url".toList⟩)]
        "t1".toList none (fun _ => none) (fun _ => .InProgress) false
        (.error "x".toList)).1.httpStatus = 400
    ∧ (getResult [("t1".toList, ⟨"a.txt".toList, "fr".toList, "u1".toList, "url".toList⟩)]
        "t1".toList none (fun _ => none) (fun _ => .InProgress) false
        (.error "x".toList)).1.polls = 3
    ∧ (getResult [("t1".toList, ⟨"a.txt".toList, "fr".toList, "u1".toList, "url".toList⟩)]
        "t1".toList none (fun _ => none) (fun _ => .InProgress) false
        (.error "x".toList)).1.sleeps * 5 = 10 := by
  have h := claim2_bounded_polling
    [("t1".toList, ⟨"a.txt".toList, "fr".toList, "u1".toList, "url".toList⟩)]
    "t1".toList none (fun _ => none) (fun _ => .InProgress) false
    (.error "x".toList) ⟨"a.txt".toList, "fr".toList, "u1".toList, "url".toList⟩
    (by decide) rfl
  have h2 := h.2.1 (fun i _ h => TransStatus.noConfusion h)
  exact ⟨h2.1, h2.2.2.1, h2.2.2.2.2.1⟩

/-- C3 (counterexample): after a successful first retrieval evicts the
record, a second request for the same id does not answer 404: the recovery
scan finds the still-recent output object, rebuilds an artificial record,
and the handler then crashes evicting the absent record, answering a generic
500 internal error instead of the claimed not-found error. -/
theorem claim3_counterexample :
    (getResult [("t1".toList, ⟨"doc.txt".toList, "fr".toList, "u1".toList, "url".toList⟩)]
        "t1".toList (some [⟨"doc-fr.txt".toList, 100, 1, "u".toList⟩])
        (fun _ => some [9]) (fun _ => .InProgress) false (.error [])).1.httpStatus = 200
    ∧ (getResult [("t1".toList, ⟨"doc.txt".toList, "fr".toList, "u1".toList, "url".toList⟩)]
        "t1".toList (some [⟨"doc-fr.txt".toList, 100, 1, "u".toList⟩])
        (fun _ => some [9]) (fun _ => .InProgress) false (.error [])).2 = []
    ∧ (getResult [] "t1".toList (some [⟨"doc-fr.txt".toList, 100, 1, "u".toList⟩])
        (fun _ => some [9]) (fun _ => .InProgress) false (.error [])).1.httpStatus = 500
    ∧ (getResult [] "t1".toList (some [⟨"doc-fr.txt".toList, 100, 1, "u".toList⟩])
        (fun _ => some [9]) (fun _ => .InProgress) false (.error [])).1.errorKind
      = some ErrKind.internal
    ∧ (getResult [] "t1".toList (some [⟨"doc-fr.txt".toList, 100, 1, "u".toList⟩])
        (fun _ => some [9]) (fun _ => .InProgress) false (.error [])).1.errorKind
      ≠ some ErrKind.notFound
    ∧ (getResult [] "t1".toList (some [⟨"doc-fr.txt".toList, 100, 1, "u".toList⟩])
        (fun _ => some [9]) (fun _ => .InProgress) false (.error [])).1.success = false := by
  refine ⟨by decide, by decide, by decide, by decide, by decide, by decide⟩

/-- C3 (amended): a successful retrieval of a registered job evicts exactly
its record; afterwards the id no longer resolves in the registry; a second
request answers 404 not-found when the recovery scan yields no candidate
(listing failure, or no object modified within 2 hours); and whatever the
listing, a second request never reports success again. -/
theorem claim3_amended (registry : Registry) (tid : Str)
    (listing listing2 : Option (List BlobMeta))
    (downloads : Nat → Option Bytes) (statuses : Nat → TransStatus)
    (enabled : Bool) (save : Except Str Str) (info : JobInfo) (c : Bytes) (p s : Nat)
    (hreg : lookupReg registry tid = some info)
    (hres : resolveContent downloads statuses = .ok c p s)
    (hlist2 : ∀ l, listing2 = some l → recoverInfo l = none) :
    (getResult registry tid listing downloads statuses enabled save).2
        = eraseReg registry tid
    ∧ lookupReg (eraseReg registry tid) tid = none
    ∧ (getResult (eraseReg registry tid) tid listing2 downloads statuses enabled
        save).1.httpStatus = 404
    ∧ (getResult (eraseReg registry tid) tid listing2 downloads statuses enabled
        save).1.errorKind = some ErrKind.notFound
    ∧ ∀ anyListing,
        (getResult (eraseReg registry tid) tid anyListing downloads statuses enabled
          save).1.success = false := by
  have herase := lookupReg_eraseReg registry tid
  refine ⟨?_, herase, ?_, ?_, ?_⟩
  · simp [getResult, lookupInfo, hreg, hres]
  · cases listing2 with
    | none => simp [getResult, lookupInfo, herase]
    | some l =>
      have hrec := hlist2 l rfl
      simp [getResult, lookupInfo, herase, hrec]
  · cases listing2 with
    | none => simp [getResult, lookupInfo, herase]
    | some l =>
      have hrec := hlist2 l rfl
      simp [getResult, lookupInfo, herase, hrec]
  · intro anyListing
    cases anyListing with
    | none => simp [getResult, lookupInfo, herase]
    | some l =>
      cases hrec : recoverInfo l with
      | none => simp [getResult, lookupInfo, herase, hrec]
      | some info2 => simp [getResult, lookupInfo, herase, hrec, hres]

/-- C3 (witness): the amended properties at a concrete registered job with a
successful download, an empty second listing, and a nonempty third listing. -/
theorem claim3_witness :
    (getResult [("t1".toList, ⟨"doc.txt".toList, "fr".toList, "u1".toList, "url".toList⟩)]
        "t1".toList none (fun _ => some [9]) (fun _ => .InProgress) false
        (.error [])).2 = []
    ∧ (getResult [] "t1".toList (some []) (fun _ => some [9]) (fun _ => .InProgress)
        false (.error [])).1.httpStatus = 404
    ∧ (getResult [] "t1".toList (some [⟨"doc-fr.txt".toList, 100, 1, "u".toList⟩])
        (fun _ => some [9]) (fun _ => .InProgress) false (.error [])).1.success
      = false := by
  have h := claim3_amended
    [("t1".toList, ⟨"doc.txt".toList, "fr".toList, "u1".toList, "url".toList⟩)]
    "t1".toList none (some []) (fun _ => some [9]) (fun _ => .InProgress) false
    (.error []) ⟨"doc.txt".toList, "fr".toList, "u1".toList, "url".toList⟩ [9] 0 0
    (by decide) rfl (fun l hl => by cases hl; decide)
  exact ⟨h.1, h.2.2.1, h.2.2.2.2 (some [⟨"doc-fr.txt".toList, 100, 1, "u".toList⟩])⟩

/-- C8 (REST behavior and MCP divergence): for a registered job whose
artifact downloads successfully while the OneDrive handoff fails, the REST
handler answers 200 with the artifact and success, reports the failure only
through `saved_to_onedrive = false` with the error message attached, and
still evicts the record.  On the MCP handler the claimed behavior is
unreachable: `file_name` is not among the stored record keys, so after a
successful download the handler answers the generic retrieval error and
keeps the record, for every state of the handoff backend. -/
theorem claim8_handoff_nonfatal (registry : Registry) (tid : Str)
    (listing : Option (List BlobMeta)) (downloads : Nat → Option Bytes)
    (statuses : Nat → TransStatus) (info : JobInfo) (c : Bytes) (msg : Str)
    (hreg : lookupReg registry tid = some info)
    (hdl : downloads 0 = some c) :
    ((getResult registry tid listing downloads statuses true (.error msg)).1.httpStatus = 200
      ∧ (getResult registry tid listing downloads statuses true (.error msg)).1.success = true
      ∧ (getResult registry tid listing downloads statuses true (.error msg)).1.content = some c
      ∧ (getResult registry tid listing downloads statuses true
          (.error msg)).1.savedToOneDrive = some false
      ∧ (getResult registry tid listing downloads statuses true
          (.error msg)).1.onedriveError = some msg
      ∧ (getResult registry tid listing downloads statuses true
          (.error msg)).1.onedriveUrl = none
      ∧ (getResult registry tid listing downloads statuses true (.error msg)).2
          = eraseReg registry tid)
    ∧ ("file_name".toList ∉ mcpRecordKeys)
    ∧ (∀ (reg2 : Registry) (t2 : Str) (c2 : Bytes) (sv2 : Except Str Str) (i2 : JobInfo),
        lookupReg reg2 t2 = some i2 →
        (handleGetResultMCP reg2 t2 true .Succeeded (some c2) sv2).1 = .retrieveErrorMsg
        ∧ (handleGetResultMCP reg2 t2 true .Succeeded (some c2) sv2).2 = reg2) := by
  refine ⟨?_, by decide, ?_⟩
  · simp [getResult, lookupInfo, hreg, resolveContent, hdl, onedrivePart]
  · intro reg2 t2 c2 sv2 i2 hlk
    have hkey : (['f', 'i', 'l', 'e', '_', 'n', 'a', 'm', 'e'] : Str) ∉ mcpRecordKeys := by
      decide
    constructor <;> simp [handleGetResultMCP, hlk, hkey]

/-- C8 (witness): the REST non-fatal handoff failure and the MCP generic
error at a concrete registered job with a failing OneDrive save. -/
theorem claim8_witness :
    (getResult [("t1".toList, ⟨"a.txt".toList, "fr".toList, "u1".toList, "url".toList⟩)]
        "t1".toList none (fun _ => some [7]) (fun _ => .Succeeded) true
        (.error "graph down".toList)).1.success = true
    ∧ (getResult [("t1".toList, ⟨"a.txt".toList, "fr".toList, "u1".toList, "url".toList⟩)]
        "t1".toList none (fun _ => some [7]) (fun _ => .Succeeded) true
        (.error "graph down".toList)).1.savedToOneDrive = some false
    ∧ (getResult [("t1".toList, ⟨"a.txt".toList, "fr".toList, "u1".toList, "url".toList⟩)]
        "t1".toList none (fun _ => some [7]) (fun _ => .Succeeded) true
        (.error "graph down".toList)).1.onedriveError = some "graph down".toList
    ∧ (getResult [("t1".toList, ⟨"a.txt".toList, "fr".toList, "u1".toList, "url".toList⟩)]
        "t1".toList none (fun _ => some [7]) (fun _ => .Succeeded) true
        (.error "graph down".toList)).2 = []
    ∧ (handleGetResultMCP
        [("t1".toList, ⟨"a.txt".toList, "fr".toList, "u1".toList, "url".toList⟩)]
        "t1".toList true .Succeeded (some [7]) (.error "graph down".toList)).1
      = .retrieveErrorMsg
    ∧ (handleGetResultMCP
        [("t1".toList, ⟨"a.txt".toList, "fr".toList, "u1".toList, "url".toList⟩)]
        "t1".toList true .Succeeded (some [7]) (.error "graph down".toList)).2
      = [("t1".toList, ⟨"a.txt".toList, "fr".toList, "u1".toList, "url".toList⟩)] := by
  have h := claim8_handoff_nonfatal
    [("t1".toList, ⟨"a.txt".toList, "fr".toList, "u1".toList, "url".toList⟩)]
    "t1".toList none (fun _ => some [7]) (fun _ => .Succeeded)
    ⟨"a.txt".toList, "fr".toList, "u1".toList, "url".toList⟩ [7] "graph down".toList
    (by decide) rfl
  have hm := h.2.2 [("t1".toList, ⟨"a.txt".toList, "fr".toList, "u1".toList, "url".toList⟩)]
    "t1".toList [7] (.error "graph down".toList)
    ⟨"a.txt".toList, "fr".toList, "u1".toList, "url".toList⟩ (by decide)
  exact ⟨h.1.2.1, h.1.2.2.2.1, h.1.2.2.2.2.1, h.1.2.2.2.2.2.2, hm.1, hm.2⟩

/-- C7 (confirmed): a submission naming a source object the existence probe
denies answers not-found, never contacts the translation provider, and
creates no job record, both in the REST handler and in the MCP handler. -/
theorem claim7_notfound_never_submits (registry : Registry) (b t u : Str)
    (prep start : Except Str Str) :
    translateDocument registry b t u (.ok false) prep start
      = ⟨.notFound b, false, registry⟩
    ∧ handleTranslateMCP registry b t u (.ok false) prep start
      = ⟨.notFoundText b, false, registry⟩ :=
  ⟨rfl, rfl⟩

/-- C10 (confirmed): when the storage existence call raises,
`check_blob_exists` swallows the exception and returns `False`, so the
submission pipeline reports not-found (not a storage error), never contacts
the provider, and creates no record. -/
theorem claim10_probe_never_raises (e : Str) (registry : Registry) (b t u : Str)
    (prep start : Except Str Str) :
    checkBlobExists (.error e) = false
    ∧ translateDocument registry b t u (.error e) prep start
      = ⟨.notFound b, false, registry⟩
    ∧ handleTranslateMCP registry b t u (.error e) prep start
      = ⟨.notFoundText b, false, registry⟩ :=
  ⟨rfl, rfl, rfl⟩

/-- C4 (code evaluation): `_get_access_token` performs exactly one
client-credentials exchange on every call and its result never depends on
the cached token; concretely, a first call caches the token, yet a second
call with the identity endpoint now failing still performs an exchange and
returns no token instead of the cached one. -/
theorem claim4_cache_never_read :
    (∀ (exchange : ExchangeOutcome) (cached : Option Str),
        (getAccessTokenModel exchange cached).2.2 = 1
        ∧ (getAccessTokenModel exchange cached).1 = (getAccessTokenModel exchange none).1)
    ∧ (getAccessTokenModel (.ok (some "tok".toList)) none).2.1 = some "tok".toList
    ∧ (getAccessTokenModel .failed (some "tok".toList)).2.2 = 1
    ∧ (getAccessTokenModel .failed (some "tok".toList)).1 = none := by
  refine ⟨?_, rfl, rfl, rfl⟩
  intro exchange cached
  cases exchange with
  | ok t => cases t <;> exact ⟨rfl, rfl⟩
  | failed => exact ⟨rfl, rfl⟩

end TransServer
